import Mathlib

/-!
Verification of the document-chunking component described by the
repository's specification.  The repository sources only contain notebook
cells that *call* the external splitter (`TextSplitter.call` from the
AdalFlow library) and show its printed output; the splitter implementation
itself is not part of the sources.  The definitions below are therefore
modelled from the specification (sections 3, 4.1, 6, 7 and 8), and each
carries a doc comment saying which missing piece it models.
-/

/-- Modelled from the spec: the `split_by` unit selector of the chunker
configuration (section 4.1); the external splitter's source is not in the
repository. -/
inductive SplitBy where
  | word
  | token
deriving DecidableEq, Repr

/-- Modelled from the spec: the `Document` entity of section 3 of the
specification (the external library's `Document` record is not in the
repository sources).  `meta_data` is a free-form string mapping; `vector`
and `score` are opaque payloads untouched by chunking, modelled with an
arbitrary concrete carrier since chunking only ever leaves them empty or
absent. -/
structure Document where
  id : String
  text : String
  meta_data : Option (List (String × String)) := none
  vector : List Int := []
  parent_doc_id : Option String := none
  order : Option Nat := none
  score : Option Int := none
deriving DecidableEq, Repr

/-- Modelled from the spec: the tokenizer collaborator of section 6, which
is not in the repository sources.  `encode` yields the ordered token
strings of a text; detokenization is concatenation of the token strings
(section 4.1: "no separator for token mode"), so fidelity of the
round-trip is a stated hypothesis where a theorem needs it. -/
structure Tokenizer where
  encode : String → List String

/-- Modelled from the spec: a trivial tokenizer used for concrete
word-mode scenarios, where the tokenizer collaborator is never consulted. -/
def nullTokenizer : Tokenizer := ⟨fun _ => []⟩

/-- Modelled from the spec: the validated chunker configuration of
section 4.1 (the external `TextSplitter` class is not in the repository
sources). -/
structure Chunker where
  split_by : SplitBy
  chunk_size : Nat
  chunk_overlap : Nat
deriving DecidableEq, Repr

/-- Modelled from the spec: a configuration is valid when `chunk_size` is
positive and `chunk_overlap` is strictly below `chunk_size`
(section 4.1). -/
def Chunker.valid (c : Chunker) : Prop :=
  0 < c.chunk_size ∧ c.chunk_overlap < c.chunk_size

instance (c : Chunker) : Decidable c.valid := by
  unfold Chunker.valid; infer_instance

/-- Modelled from the spec: the window step `chunk_size - chunk_overlap`
of the sliding-window loop (section 4.1). -/
def Chunker.step (c : Chunker) : Nat := c.chunk_size - c.chunk_overlap

/-- Modelled from the spec: the error kind raised on an invalid
configuration (section 7). -/
inductive ChunkerError where
  | ConfigurationError
deriving DecidableEq, Repr

/-- Modelled from the spec: eager validation at construction time
(sections 4.1 and 7): an unknown `split_by`, a non-positive `chunk_size`,
a negative `chunk_overlap`, or `chunk_overlap >= chunk_size` fails with a
`ConfigurationError`; otherwise the validated configuration is returned.
The external constructor's source is not in the repository. -/
def mkChunker (split_by : String) (chunk_size chunk_overlap : Int) :
    Except ChunkerError Chunker :=
  if split_by ≠ "word" ∧ split_by ≠ "token" then .error .ConfigurationError
  else if chunk_size ≤ 0 then .error .ConfigurationError
  else if chunk_overlap < 0 then .error .ConfigurationError
  else if chunk_size ≤ chunk_overlap then .error .ConfigurationError
  else .ok { split_by := if split_by = "word" then .word else .token,
             chunk_size := chunk_size.toNat,
             chunk_overlap := chunk_overlap.toNat }

/-- Modelled from the spec: word-mode unit extraction (section 4.1), whose
implementation is not in the repository sources.  Text is cut at each
whitespace separator and every unit retains its trailing separator,
matching the chunk texts shown in the notebook output (for example
`'Example text. More example text. '`). -/
def wordSplitAux (cur : List Char) : List Char → List (List Char)
  | [] => [cur]
  | c :: cs =>
    if c = ' ' then (cur ++ [' ']) :: wordSplitAux [] cs
    else wordSplitAux (cur ++ [c]) cs

/-- Modelled from the spec: the word units of a text; an empty text has no
units (section 4's edge-case policy: empty text yields zero chunks). -/
def wordUnits (t : String) : List String :=
  match t.data with
  | [] => []
  | l => (wordSplitAux [] l).map String.mk

/-- Modelled from the spec: chunk text is the concatenation of the units
in the chunk's window, with no separator added between units (each word
unit already carries its trailing whitespace, and token units carry their
own spacing) — section 4.1. -/
def concatUnits (us : List String) : String :=
  ⟨(us.map String.data).flatten⟩

/-- Modelled from the spec: the unit sequence of a document's text under a
configuration — whitespace-delimited words in word mode, the tokenizer's
token strings in token mode (section 4.1). -/
def Chunker.unitsOf (c : Chunker) (tok : Tokenizer) (t : String) : List String :=
  match c.split_by with
  | .word => wordUnits t
  | .token => tok.encode t

/-- Modelled from the spec: the sliding-window loop of section 4.1 —
"starting at offset 0 and continuing while the window start is less than
the total unit count", advancing by the step each iteration.  The first
argument is a fuel bound used only to make the recursion structural; the
loop from start `s` runs at most `length - s` iterations when the step is
positive, so callers pass `length` as fuel and the bound is never hit. -/
def windowsFuel (units : List String) (size stp : Nat) : Nat → Nat → List (List String)
  | 0, _ => []
  | fuel + 1, s =>
    if s < units.length then
      (units.drop s).take size :: windowsFuel units size stp fuel (s + stp)
    else []

/-- Modelled from the spec: the chunk windows of a unit sequence
(section 4.1's sliding-window loop started at offset 0). -/
def Chunker.splitWindows (c : Chunker) (units : List String) : List (List String) :=
  windowsFuel units c.chunk_size c.step units.length 0

/-- Modelled from the spec: the chunk texts of one document's text
(section 4.1): one text per window, each the concatenation of the window's
units. -/
def Chunker.splitText (c : Chunker) (tok : Tokenizer) (t : String) : List String :=
  (c.splitWindows (c.unitsOf tok t)).map concatUnits

/-- Modelled from the spec: the chunk Documents of one parent document
(section 4.1): each chunk is a new `Document` with a fresh id drawn from
the id supply `gen` at successive counter values, `text` the windowed
span, `parent_doc_id` the parent's id, `order` the zero-based chunk index,
`meta_data` absent, `vector` empty and `score` absent. -/
def Chunker.chunksOf (c : Chunker) (tok : Tokenizer) (gen : Nat → String)
    (ctr : Nat) (doc : Document) : List Document :=
  (c.splitText tok doc.text).enum.map fun p =>
    { id := gen (ctr + p.1), text := p.2, meta_data := none, vector := [],
      parent_doc_id := some doc.id, order := some p.1, score := none }

/-- Modelled from the spec: chunking a batch (section 4.1): chunks of the
input documents are emitted in input order, each document's chunks
contiguous; the id counter is threaded through so ids are never reused
across input documents. -/
def Chunker.chunkDocuments (c : Chunker) (tok : Tokenizer) (gen : Nat → String) :
    Nat → List Document → List Document
  | _, [] => []
  | ctr, d :: ds =>
    let block := c.chunksOf tok gen ctr d
    block ++ c.chunkDocuments tok gen (ctr + block.length) ds

/-- Modelled from the spec: the split operation `call(documents)` of the
external `TextSplitter` (section 4.1), a total function of the validated
configuration — no error is ever raised during a split call. -/
def Chunker.call (c : Chunker) (tok : Tokenizer) (gen : Nat → String)
    (docs : List Document) : List Document :=
  c.chunkDocuments tok gen 0 docs

/-- Modelled from the spec: the chunk-count formula of section 8, written
from the spec's own words for comparison with the modelled operation:
`ceil(max(unit_count - chunk_overlap, 1) / (chunk_size - chunk_overlap))`
when `unit_count > 0`, and 0 when `unit_count = 0`. -/
def specChunkCountFormula (unit_count chunk_size chunk_overlap : Nat) : Nat :=
  if unit_count = 0 then 0
  else (max (unit_count - chunk_overlap) 1 + (chunk_size - chunk_overlap) - 1)
        / (chunk_size - chunk_overlap)

/-- Modelled from the spec: the reconstruction of claim C4 — the first
`step` units of every chunk but the last, followed by all units of the
last chunk (section 8's second testable property). -/
def reconcatHeads (d : Nat) : List (List String) → List String
  | [] => []
  | [w] => w
  | w :: ws => w.take d ++ reconcatHeads d ws

/-- Modelled from the spec: the overlap-stitched unit sequence — the first
window whole, every later window with its leading `o` units dropped. -/
def overlapStitch (o : Nat) : List (List String) → List String
  | [] => []
  | w :: ws => w ++ (ws.map (List.drop o)).flatten

/-- Modelled from the spec: chunk texts stitched back together — the first
chunk's text whole, every later chunk's text with its leading `o` units
dropped before concatenation. -/
def stitchedTexts (o : Nat) : List (List String) → List String
  | [] => []
  | w :: ws => concatUnits w :: ws.map (fun u => concatUnits (u.drop o))

/-- The word-mode example document of the notebook's first scenario. -/
def exampleText : String :=
  "Example text. More example text. Even more text to illustrate."

/-- The example document `doc1` of the notebook's first scenario. -/
def exampleDoc : Document := { id := "doc1", text := exampleText }

theorem windowsFuel_stop (units : List String) (size stp : Nat) (fuel s : Nat)
    (hs : units.length ≤ s) : windowsFuel units size stp fuel s = [] := by
  cases fuel with
  | zero => rfl
  | succ fuel => simp [windowsFuel, Nat.not_lt.2 hs]

theorem windowsFuel_length (units : List String) (size stp : Nat) (hstp : 0 < stp) :
    ∀ fuel s, units.length - s ≤ fuel →
      (windowsFuel units size stp fuel s).length =
        if s < units.length then (units.length - s - 1) / stp + 1 else 0 := by
  intro fuel
  induction fuel with
  | zero =>
    intro s hs
    have hsn : units.length ≤ s := by omega
    simp [windowsFuel_stop units size stp 0 s hsn, Nat.not_lt.2 hsn]
  | succ fuel ih =>
    intro s hs
    by_cases hlt : s < units.length
    · have hrec := ih (s + stp) (by omega)
      simp only [windowsFuel, if_pos hlt, List.length_cons, hrec]
      by_cases h2 : s + stp < units.length
      · have hle : stp ≤ units.length - s - 1 := by omega
        rw [if_pos h2, Nat.div_eq_sub_div hstp hle]
        have heq : units.length - s - 1 - stp = units.length - (s + stp) - 1 := by omega
        rw [heq]
      · rw [if_neg h2]
        have hlt2 : units.length - s - 1 < stp := by omega
        rw [Nat.div_eq_of_lt hlt2]
    · simp [windowsFuel, hlt]

theorem windowsFuel_eq_map (units : List String) (size stp : Nat) (hstp : 0 < stp) :
    ∀ fuel s, units.length - s ≤ fuel →
      windowsFuel units size stp fuel s =
        (List.range (windowsFuel units size stp fuel s).length).map
          (fun i => (units.drop (s + i * stp)).take size) := by
  intro fuel
  induction fuel with
  | zero => intro s _; rfl
  | succ fuel ih =>
    intro s hs
    by_cases hlt : s < units.length
    · have hrec := ih (s + stp) (by omega)
      simp only [windowsFuel, if_pos hlt, List.length_cons]
      rw [List.range_succ_eq_map, List.map_cons, List.map_map]
      congr 1
      · rw [Nat.zero_mul, Nat.add_zero]
      · conv_lhs => rw [hrec]
        apply List.map_congr_left
        intro i _
        simp only [Function.comp_apply, Function.comp]
        have harg : s + stp + i * stp = s + Nat.succ i * stp := by
          rw [Nat.succ_mul]; ring
        rw [harg]
    · rw [windowsFuel_stop units size stp _ _ (by omega)]
      rfl

theorem reconcatHeads_windowsFuel (units : List String) (size stp : Nat)
    (hstp : 0 < stp) (hss : stp ≤ size) :
    ∀ fuel s, units.length - s ≤ fuel → s < units.length →
      reconcatHeads stp (windowsFuel units size stp fuel s) = units.drop s := by
  intro fuel
  induction fuel with
  | zero => intro s hs hlt; omega
  | succ fuel ih =>
    intro s hs hlt
    simp only [windowsFuel, if_pos hlt]
    by_cases h2 : s + stp < units.length
    · have hrec := ih (s + stp) (by omega) h2
      cases hf : windowsFuel units size stp fuel (s + stp) with
      | nil =>
        exfalso
        have hlen := windowsFuel_length units size stp hstp fuel (s + stp) (by omega)
        rw [hf, if_pos h2] at hlen
        simp at hlen
      | cons w ws =>
        rw [hf] at hrec
        simp only [reconcatHeads]
        rw [hrec, List.take_take, Nat.min_def, if_pos hss, ← List.drop_drop,
            List.take_append_drop]
    · rw [windowsFuel_stop units size stp _ _ (by omega)]
      simp only [reconcatHeads]
      apply List.take_of_length_le
      rw [List.length_drop]
      omega

theorem windowsFuel_map_drop_flatten (units : List String) (size stp o : Nat)
    (hsum : o + stp = size) (hstp : 0 < stp) :
    ∀ fuel s, units.length - s ≤ fuel →
      ((windowsFuel units size stp fuel s).map (List.drop o)).flatten =
        units.drop (s + o) := by
  intro fuel
  induction fuel with
  | zero =>
    intro s hs
    rw [List.drop_eq_nil_of_le (by omega)]
    rfl
  | succ fuel ih =>
    intro s hs
    by_cases hlt : s < units.length
    · have hrec := ih (s + stp) (by omega)
      simp only [windowsFuel, if_pos hlt, List.map_cons, List.flatten_cons, hrec]
      rw [List.drop_take, List.drop_drop]
      have h1 : size - o = stp := by omega
      have h2 : s + stp + o = s + o + stp := by ring
      have h3 : units.drop (s + o + stp) = (units.drop (s + o)).drop stp :=
        (List.drop_drop stp (s + o) units).symm
      rw [h1, h2, h3, List.take_append_drop]
    · rw [windowsFuel_stop units size stp _ _ (by omega),
          List.drop_eq_nil_of_le (by omega)]
      rfl

theorem wordSplitAux_flatten :
    ∀ (l cur : List Char), (wordSplitAux cur l).flatten = cur ++ l := by
  intro l
  induction l with
  | nil => intro cur; simp [wordSplitAux]
  | cons c cs ih =>
    intro cur
    simp only [wordSplitAux]
    split
    next hc =>
      subst hc
      simp [ih]
    next hc =>
      rw [ih]
      simp

theorem wordSplitAux_ne_nil : ∀ (l cur : List Char), wordSplitAux cur l ≠ [] := by
  intro l
  induction l with
  | nil => intro cur; simp [wordSplitAux]
  | cons c cs ih =>
    intro cur
    by_cases hc : c = ' '
    · subst hc; simp [wordSplitAux]
    · simp only [wordSplitAux, if_neg hc]; exact ih _

theorem wordSplitAux_dropLast_space :
    ∀ (l cur : List Char), ∀ u ∈ (wordSplitAux cur l).dropLast,
      u.getLast? = some ' ' := by
  intro l
  induction l with
  | nil => intro cur u hu; simp [wordSplitAux] at hu
  | cons c cs ih =>
    intro cur u hu
    simp only [wordSplitAux] at hu
    split at hu
    next hc =>
      rw [List.dropLast_cons_of_ne_nil (wordSplitAux_ne_nil cs [])] at hu
      rcases List.mem_cons.1 hu with h | h
      · subst h; exact List.getLast?_concat cur
      · exact ih [] u h
    next hc =>
      exact ih _ u hu

theorem concatUnits_cons (a : String) (l : List String) :
    concatUnits (a :: l) = a ++ concatUnits l := by
  apply String.ext
  simp [concatUnits, String.data_append]

theorem concatUnits_append (a b : List String) :
    concatUnits (a ++ b) = concatUnits a ++ concatUnits b := by
  apply String.ext
  simp [concatUnits, String.data_append]

theorem concatUnits_map_concat (ll : List (List String)) :
    concatUnits (ll.map concatUnits) = concatUnits ll.flatten := by
  induction ll with
  | nil => rfl
  | cons w ll ih =>
    rw [List.map_cons, concatUnits_cons, ih, List.flatten_cons, concatUnits_append]

theorem concatUnits_wordUnits (t : String) : concatUnits (wordUnits t) = t := by
  apply String.ext
  cases h : t.data with
  | nil => simp [wordUnits, h, concatUnits]
  | cons c cs =>
    simp only [wordUnits, h, concatUnits, List.map_map]
    have hdata : (String.data ∘ String.mk) = id := rfl
    rw [hdata, List.map_id, wordSplitAux_flatten]
    rfl

theorem Chunker.valid_step_pos (c : Chunker) (h : c.valid) : 0 < c.step := by
  rcases h with ⟨h1, h2⟩
  unfold Chunker.step
  omega

/-- C1 (counterexample): for the valid configuration `split_by=word`,
`chunk_size=2`, `chunk_overlap=1` and a document with 2 units, the split
operation emits 2 chunks while the spec's formula
`ceil(max(unit_count - chunk_overlap, 1) / (chunk_size - chunk_overlap))`
gives 1, so the claimed chunk-count formula is false. -/
theorem chunk_count_formula_counterexample :
    (Chunker.mk .word 2 1).valid
    ∧ ((Chunker.mk .word 2 1).unitsOf nullTokenizer "a b").length = 2
    ∧ ((Chunker.mk .word 2 1).splitText nullTokenizer "a b").length = 2
    ∧ specChunkCountFormula 2 2 1 = 1
    ∧ ((Chunker.mk .word 2 1).splitText nullTokenizer "a b").length ≠
        specChunkCountFormula
          ((Chunker.mk .word 2 1).unitsOf nullTokenizer "a b").length 2 1 :=
  ⟨by decide, rfl, rfl, rfl, by decide⟩

/-- C1 (amended): for every valid configuration and every document whose
text splits into `unit_count` units, the number of chunks the split
operation emits equals `ceil(unit_count / (chunk_size - chunk_overlap))`
(written `(unit_count - 1) / (chunk_size - chunk_overlap) + 1`) when
`unit_count > 0`, and 0 when `unit_count = 0`. -/
theorem splitText_chunk_count (c : Chunker) (h : c.valid) (tok : Tokenizer)
    (t : String) :
    (c.splitText tok t).length =
      if (c.unitsOf tok t).length = 0 then 0
      else ((c.unitsOf tok t).length - 1) / c.step + 1 := by
  have hstp : 0 < c.step := c.valid_step_pos h
  unfold Chunker.splitText Chunker.splitWindows
  rw [List.length_map]
  rw [windowsFuel_length _ _ _ hstp _ 0 (by omega)]
  simp only [Nat.sub_zero]
  by_cases hn : (c.unitsOf tok t).length = 0
  · simp [hn]
  · rw [if_pos (by omega), if_neg hn]

/-- C1 (witness): the amended count law evaluated on the notebook's
scenario (word mode, chunk size 5, overlap 1, the 10-word example text):
the emitted chunk count matches the amended formula. -/
theorem splitText_chunk_count_witness :
    ((Chunker.mk .word 5 1).splitText nullTokenizer exampleText).length =
      if ((Chunker.mk .word 5 1).unitsOf nullTokenizer exampleText).length = 0 then 0
      else (((Chunker.mk .word 5 1).unitsOf nullTokenizer exampleText).length - 1)
            / (Chunker.mk .word 5 1).step + 1 :=
  splitText_chunk_count (Chunker.mk .word 5 1) (by decide) nullTokenizer exampleText

/-- C2: for every valid configuration and every unit sequence, the split
produces exactly one window per start `i * step` (step =
`chunk_size - chunk_overlap`) strictly below the unit count, the window at
start `s` holding units `s` through `min (s + chunk_size) unit_count - 1`
(expressed as `(units.drop s).take chunk_size`, whose length is
`min chunk_size (unit_count - s)`, shorter than `chunk_size` exactly when
the remaining tail is); chunk texts are these windows concatenated. -/
theorem splitWindows_sliding (c : Chunker) (h : c.valid) (us : List String) :
    c.splitWindows us =
        (List.range (c.splitWindows us).length).map
          (fun i => (us.drop (i * c.step)).take c.chunk_size)
    ∧ (∀ i, i < (c.splitWindows us).length ↔ i * c.step < us.length)
    ∧ (∀ i, i < (c.splitWindows us).length →
        ((us.drop (i * c.step)).take c.chunk_size).length =
          min c.chunk_size (us.length - i * c.step))
    ∧ ∀ tok t, c.splitText tok t = (c.splitWindows (c.unitsOf tok t)).map concatUnits := by
  have hstp : 0 < c.step := c.valid_step_pos h
  refine ⟨?_, ?_, ?_, fun tok t => rfl⟩
  · have hm := windowsFuel_eq_map us c.chunk_size c.step hstp us.length 0 (by omega)
    simp only [Nat.zero_add] at hm
    exact hm
  · intro i
    have hlen := windowsFuel_length us c.chunk_size c.step hstp us.length 0 (by omega)
    simp only [Nat.sub_zero] at hlen
    unfold Chunker.splitWindows
    rw [hlen]
    by_cases hn : 0 < us.length
    · rw [if_pos hn]
      constructor
      · intro hi
        have h1 : i ≤ (us.length - 1) / c.step := by omega
        have h2 := (Nat.le_div_iff_mul_le hstp).1 h1
        omega
      · intro hi
        have h1 : i * c.step ≤ us.length - 1 := by omega
        have h2 := (Nat.le_div_iff_mul_le hstp).2 h1
        omega
    · rw [if_neg hn]
      constructor
      · omega
      · intro hi
        omega
  · intro i hi
    rw [List.length_take, List.length_drop]

/-- C2 (witness): the sliding-window law evaluated on the concrete valid
configuration word/2/1 and the two-unit sequence. -/
theorem splitWindows_sliding_witness :
    (Chunker.mk .word 2 1).splitWindows ["a ", "b"] =
      (List.range ((Chunker.mk .word 2 1).splitWindows ["a ", "b"]).length).map
        (fun i => ((["a ", "b"] : List String).drop (i * (Chunker.mk .word 2 1).step)).take
          (Chunker.mk .word 2 1).chunk_size) :=
  (splitWindows_sliding (Chunker.mk .word 2 1) (by decide) ["a ", "b"]).1

/-- C3: every chunk produced for a parent document carries
`parent_doc_id = some parent.id`, the `order` values of the parent's
chunks are exactly `some 0, some 1, ..., some (n-1)` in emission order,
and in a batch each parent's chunks form one contiguous block emitted in
input order. -/
theorem chunksOf_provenance (c : Chunker) (tok : Tokenizer) (gen : Nat → String)
    (ctr : Nat) (doc : Document) :
    (∀ ch ∈ c.chunksOf tok gen ctr doc, ch.parent_doc_id = some doc.id)
    ∧ (c.chunksOf tok gen ctr doc).map Document.order =
        (List.range (c.chunksOf tok gen ctr doc).length).map some
    ∧ ∀ ds, c.chunkDocuments tok gen ctr (doc :: ds) =
        c.chunksOf tok gen ctr doc ++
          c.chunkDocuments tok gen (ctr + (c.chunksOf tok gen ctr doc).length) ds := by
  refine ⟨?_, ?_, fun ds => rfl⟩
  · intro ch hch
    unfold Chunker.chunksOf at hch
    rcases List.mem_map.1 hch with ⟨p, hp, rfl⟩
    rfl
  · unfold Chunker.chunksOf
    rw [List.map_map, List.length_map]
    rw [show (Document.order ∘ fun p : Nat × String =>
        ({ id := gen (ctr + p.1), text := p.2, meta_data := none, vector := [],
           parent_doc_id := some doc.id, order := some p.1, score := none } :
           Document)) = (some ∘ Prod.fst) from rfl]
    rw [← List.map_map, List.enum_map_fst, List.enum_length]

/-- C4: for every valid configuration, concatenating the first
`chunk_size - chunk_overlap` units of every chunk window except the last,
followed by all units of the last window, reconstructs the original unit
sequence in order. -/
theorem reconcatHeads_splitWindows (c : Chunker) (h : c.valid) (us : List String) :
    reconcatHeads c.step (c.splitWindows us) = us := by
  have hstp : 0 < c.step := c.valid_step_pos h
  have hss : c.step ≤ c.chunk_size := by
    unfold Chunker.step
    omega
  cases Nat.eq_zero_or_pos us.length with
  | inl h0 =>
    unfold Chunker.splitWindows
    rw [windowsFuel_stop _ _ _ _ _ (by omega)]
    rw [List.length_eq_zero.1 h0]
    rfl
  | inr hpos =>
    have hrec :=
      reconcatHeads_windowsFuel us c.chunk_size c.step hstp hss us.length 0
        (by omega) hpos
    unfold Chunker.splitWindows
    rw [hrec, List.drop_zero]

/-- C4 (witness): reconstruction evaluated on the 10-word notebook
example with chunk size 5 and overlap 1. -/
theorem reconcatHeads_splitWindows_witness :
    reconcatHeads (Chunker.mk .word 5 1).step
        ((Chunker.mk .word 5 1).splitWindows (wordUnits exampleText)) =
      wordUnits exampleText :=
  reconcatHeads_splitWindows (Chunker.mk .word 5 1) (by decide) (wordUnits exampleText)

/-- C5: constructing a chunker with `chunk_size <= 0`, with
`chunk_overlap >= chunk_size`, or with `split_by` outside
`{word, token}` fails with a `ConfigurationError` at construction time; in
particular `chunk_size=3, chunk_overlap=3` is rejected; and a split call
on a constructed chunker is a total function — it always returns a chunk
list and never raises such an error. -/
theorem mkChunker_validation :
    (∀ (sb : String) (cs co : Int),
        (cs ≤ 0 ∨ cs ≤ co ∨ (sb ≠ "word" ∧ sb ≠ "token")) →
          mkChunker sb cs co = .error .ConfigurationError)
    ∧ mkChunker "word" 3 3 = .error .ConfigurationError
    ∧ ∀ (c : Chunker) (tok : Tokenizer) (gen : Nat → String)
        (docs : List Document),
        ∃ out : List Document, c.call tok gen docs = out := by
  refine ⟨?_, rfl, fun c tok gen docs => ⟨_, rfl⟩⟩
  intro sb cs co hbad
  unfold mkChunker
  split_ifs with h1 h2 h3 h4 <;> try rfl
  exfalso
  rcases hbad with h | h | h
  · exact h2 h
  · exact h4 h
  · exact h1 h

/-- C5 (witness): the validation law applied at the concrete invalid
construction `chunk_size = 0`. -/
theorem mkChunker_validation_witness :
    mkChunker "word" 0 0 = .error .ConfigurationError :=
  mkChunker_validation.1 "word" 0 0 (Or.inl (by decide))

theorem unitsOf_empty (c : Chunker) (tok : Tokenizer) (htok : tok.encode "" = []) :
    c.unitsOf tok "" = [] := by
  unfold Chunker.unitsOf
  cases c.split_by
  · rfl
  · exact htok

/-- C6: for every valid configuration, splitting a document whose text is
empty yields zero chunks for that document (the split is a total function,
so no error is raised); requires only that the tokenizer yields no units
on the empty text in token mode, which word mode satisfies by
construction. -/
theorem chunksOf_empty_text (c : Chunker) (h : c.valid) (tok : Tokenizer)
    (htok : tok.encode "" = []) (gen : Nat → String) (ctr : Nat)
    (doc : Document) (hdoc : doc.text = "") :
    c.chunksOf tok gen ctr doc = [] := by
  unfold Chunker.chunksOf Chunker.splitText Chunker.splitWindows
  rw [hdoc, unitsOf_empty c tok htok]
  rfl

/-- C6 (witness): the empty-text law at the concrete valid configuration
word/2/1 and a document with empty text. -/
theorem chunksOf_empty_text_witness :
    (Chunker.mk .word 2 1).chunksOf nullTokenizer (fun n => toString n) 0
        { id := "d", text := "" } = [] :=
  chunksOf_empty_text (Chunker.mk .word 2 1) (by decide) nullTokenizer rfl
    (fun n => toString n) 0 { id := "d", text := "" } rfl

/-- C7: splitting the same documents twice with the same configuration
yields chunk sequences with identical `text`, `parent_doc_id` and `order`
component-wise, whatever the two runs' id supplies and counters are (the
freshly generated ids may differ between runs). -/
theorem chunkDocuments_deterministic (c : Chunker) (tok : Tokenizer)
    (gen1 gen2 : Nat → String) (ctr1 ctr2 : Nat) (docs : List Document) :
    (c.chunkDocuments tok gen1 ctr1 docs).map
        (fun ch => (ch.text, ch.parent_doc_id, ch.order)) =
      (c.chunkDocuments tok gen2 ctr2 docs).map
        (fun ch => (ch.text, ch.parent_doc_id, ch.order)) := by
  induction docs generalizing ctr1 ctr2 with
  | nil => rfl
  | cons d ds ih =>
    simp only [Chunker.chunkDocuments, List.map_append]
    congr 1
    · unfold Chunker.chunksOf
      rw [List.map_map, List.map_map]
      rfl
    · exact ih _ _

/-- C8: scenario 1 of the spec — word mode, chunk size 5, overlap 1 on
`doc1` with the notebook's example text yields exactly 3 chunks with
orders 0, 1, 2, the first covering the first 5 words (text
`"Example text. More example text. "`), and window starts 0, 4, 8, i.e.
each subsequent chunk starting 4 words after the previous one. -/
theorem scenario1_word_size5_overlap1 (tok : Tokenizer) (gen : Nat → String) :
    ((Chunker.mk .word 5 1).chunksOf tok gen 0 exampleDoc).map Document.text =
        ["Example text. More example text. ", "text. Even more text to ",
         "to illustrate."]
    ∧ ((Chunker.mk .word 5 1).chunksOf tok gen 0 exampleDoc).map Document.order =
        [some 0, some 1, some 2]
    ∧ ((Chunker.mk .word 5 1).chunksOf tok gen 0 exampleDoc).map
        Document.parent_doc_id = [some "doc1", some "doc1", some "doc1"]
    ∧ (wordUnits exampleText).length = 10
    ∧ (Chunker.mk .word 5 1).splitWindows (wordUnits exampleText) =
        [(wordUnits exampleText).take 5,
         ((wordUnits exampleText).drop 4).take 5,
         ((wordUnits exampleText).drop 8).take 5]
    ∧ concatUnits ((wordUnits exampleText).take 5) =
        "Example text. More example text. " :=
  ⟨rfl, rfl, rfl, rfl, rfl, rfl⟩

theorem chunksOf_map_id (c : Chunker) (tok : Tokenizer) (gen : Nat → String)
    (ctr : Nat) (d : Document) :
    (c.chunksOf tok gen ctr d).map Document.id =
      (List.range (c.chunksOf tok gen ctr d).length).map (fun i => gen (ctr + i)) := by
  unfold Chunker.chunksOf
  rw [List.map_map, List.length_map]
  rw [show (Document.id ∘ fun p : Nat × String =>
      ({ id := gen (ctr + p.1), text := p.2, meta_data := none, vector := [],
         parent_doc_id := some d.id, order := some p.1, score := none } :
         Document)) = ((fun i => gen (ctr + i)) ∘ Prod.fst) from rfl]
  rw [← List.map_map, List.enum_map_fst, List.enum_length]

theorem chunkDocuments_map_id (c : Chunker) (tok : Tokenizer) (gen : Nat → String) :
    ∀ (docs : List Document) (ctr : Nat),
      (c.chunkDocuments tok gen ctr docs).map Document.id =
        (List.range (c.chunkDocuments tok gen ctr docs).length).map
          (fun i => gen (ctr + i)) := by
  intro docs
  induction docs with
  | nil => intro ctr; rfl
  | cons d ds ih =>
    intro ctr
    simp only [Chunker.chunkDocuments]
    rw [List.map_append, List.length_append, List.range_add, List.map_append,
        List.map_map, chunksOf_map_id, ih]
    congr 1
    apply List.map_congr_left
    intro i _
    simp only [Function.comp_apply]
    congr 1
    omega

/-- C9: the split never mutates its inputs (it is a pure function of
them); every emitted chunk has `meta_data = none`, `vector = []` and
`score = none`; chunk ids are drawn injectively-indexed from the id
supply, so for an injective supply all chunk ids are pairwise distinct,
and for a supply avoiding the input ids no chunk id collides with an
input document's id. -/
theorem chunkDocuments_fresh (c : Chunker) (tok : Tokenizer) (gen : Nat → String)
    (ctr : Nat) (docs : List Document) :
    (∀ ch ∈ c.chunkDocuments tok gen ctr docs,
        ch.meta_data = none ∧ ch.vector = [] ∧ ch.score = none)
    ∧ (c.chunkDocuments tok gen ctr docs).map Document.id =
        (List.range (c.chunkDocuments tok gen ctr docs).length).map
          (fun i => gen (ctr + i))
    ∧ (Function.Injective gen →
        ((c.chunkDocuments tok gen ctr docs).map Document.id).Nodup)
    ∧ ((∀ n d, d ∈ docs → gen n ≠ d.id) →
        ∀ ch ∈ c.chunkDocuments tok gen ctr docs, ∀ d ∈ docs, ch.id ≠ d.id) := by
  refine ⟨?_, chunkDocuments_map_id c tok gen docs ctr, ?_, ?_⟩
  · intro ch hch
    induction docs generalizing ctr with
    | nil => simp [Chunker.chunkDocuments] at hch
    | cons d ds ih =>
      simp only [Chunker.chunkDocuments, List.mem_append] at hch
      rcases hch with hch | hch
      · unfold Chunker.chunksOf at hch
        rcases List.mem_map.1 hch with ⟨p, hp, rfl⟩
        exact ⟨rfl, rfl, rfl⟩
      · exact ih _ hch
  · intro hgen
    rw [chunkDocuments_map_id c tok gen docs ctr]
    refine List.Nodup.map ?_ (List.nodup_range _)
    intro a b hab
    have := hgen hab
    omega
  · intro hfresh ch hch d hd
    have hmem : ch.id ∈ (c.chunkDocuments tok gen ctr docs).map Document.id :=
      List.mem_map_of_mem Document.id hch
    rw [chunkDocuments_map_id c tok gen docs ctr] at hmem
    rcases List.mem_map.1 hmem with ⟨i, _, hi⟩
    rw [← hi]
    exact hfresh (ctr + i) d hd

/-- C9 (witness): the freshness law applied at a concrete batch with an
injective id supply avoiding the input ids: the chunk ids are pairwise
distinct and distinct from the input document's id. -/
theorem chunkDocuments_fresh_witness :
    (((Chunker.mk .word 2 1).chunkDocuments nullTokenizer
        (fun n => String.mk (List.replicate (n + 1) 'a')) 0 [exampleDoc]).map
      Document.id).Nodup
    ∧ ∀ ch ∈ (Chunker.mk .word 2 1).chunkDocuments nullTokenizer
        (fun n => String.mk (List.replicate (n + 1) 'a')) 0 [exampleDoc],
        ∀ d ∈ [exampleDoc], ch.id ≠ d.id := by
  have hinj : Function.Injective (fun n => String.mk (List.replicate (n + 1) 'a')) := by
    intro a b hab
    have := congrArg (fun s => s.data.length) hab
    simpa using this
  have hfresh : ∀ n d, d ∈ [exampleDoc] →
      String.mk (List.replicate (n + 1) 'a') ≠ d.id := by
    intro n d hd heq
    rcases List.mem_singleton.1 hd with rfl
    have hlen := congrArg (fun s => s.data.length) heq
    simp [exampleDoc] at hlen
    subst hlen
    exact absurd heq (by decide)
  exact ⟨(chunkDocuments_fresh (Chunker.mk .word 2 1) nullTokenizer
      (fun n => String.mk (List.replicate (n + 1) 'a')) 0 [exampleDoc]).2.2.1 hinj,
    (chunkDocuments_fresh (Chunker.mk .word 2 1) nullTokenizer
      (fun n => String.mk (List.replicate (n + 1) 'a')) 0 [exampleDoc]).2.2.2 hfresh⟩

theorem overlapStitch_windowsFuel (units : List String) (size stp o : Nat)
    (hsum : o + stp = size) (hstp : 0 < stp) :
    ∀ fuel s, units.length - s ≤ fuel → s < units.length →
      overlapStitch o (windowsFuel units size stp fuel s) = units.drop s := by
  intro fuel s hf hs
  cases fuel with
  | zero => omega
  | succ fuel =>
    simp only [windowsFuel, if_pos hs, overlapStitch]
    rw [windowsFuel_map_drop_flatten units size stp o hsum hstp fuel (s + stp)
        (by omega)]
    have h2 : s + stp + o = s + size := by omega
    have h3 : units.drop (s + size) = (units.drop s).drop size :=
      (List.drop_drop size s units).symm
    rw [h2, h3, List.take_append_drop]

theorem overlapStitch_splitWindows (c : Chunker) (h : c.valid)
    (us : List String) :
    overlapStitch c.chunk_overlap (c.splitWindows us) = us := by
  have hstp : 0 < c.step := c.valid_step_pos h
  have hsum : c.chunk_overlap + c.step = c.chunk_size := by
    rcases h with ⟨h1, h2⟩
    unfold Chunker.step
    omega
  cases Nat.eq_zero_or_pos us.length with
  | inl h0 =>
    unfold Chunker.splitWindows
    rw [windowsFuel_stop _ _ _ _ _ (by omega), List.length_eq_zero.1 h0]
    rfl
  | inr hpos =>
    have hrec := overlapStitch_windowsFuel us c.chunk_size c.step c.chunk_overlap
      hsum hstp us.length 0 (by omega) hpos
    unfold Chunker.splitWindows
    rw [hrec, List.drop_zero]

theorem concatUnits_stitchedTexts (o : Nat) (ws : List (List String)) :
    concatUnits (stitchedTexts o ws) = concatUnits (overlapStitch o ws) := by
  cases ws with
  | nil => rfl
  | cons w rest =>
    simp only [stitchedTexts, overlapStitch]
    rw [concatUnits_cons, concatUnits_append]
    congr 1
    rw [show (fun u : List String => concatUnits (u.drop o)) =
        (concatUnits ∘ List.drop o) from rfl, ← List.map_map,
      concatUnits_map_concat]

/-- C10 (counterexample): with the valid configuration word/5/1 on
`"a b c d e"` (five units) the emitted chunk texts are
`["a b c d e", "e"]`: the first chunk is not the last chunk, yet its text
ends in `'e'`, not in a space — so "every chunk except the last ends with
a space" is false. -/
theorem nonlast_chunk_trailing_counterexample :
    (Chunker.mk .word 5 1).valid
    ∧ (Chunker.mk .word 5 1).splitText nullTokenizer "a b c d e" =
        ["a b c d e", "e"]
    ∧ ("a b c d e" : String).data.getLast? = some 'e'
    ∧ ("a b c d e" : String).data.getLast? ≠ some ' ' :=
  ⟨by decide, rfl, rfl, by decide⟩

/-- C10 (amended): for every valid configuration and every document whose
unit sequence concatenates back to its text (word mode satisfies this by
construction; token mode when the tokenizer is faithful), concatenating
the chunk texts in order after dropping each non-first chunk's leading
`chunk_overlap` units reproduces the original text exactly, character for
character; in word mode each non-final unit retains its trailing
separator, so every unit but the last ends with a space (a chunk whose
window is clipped at the final unit need not). -/
theorem stitched_reconstruction (c : Chunker) (h : c.valid) (tok : Tokenizer)
    (t : String) (hfid : concatUnits (c.unitsOf tok t) = t) :
    concatUnits (stitchedTexts c.chunk_overlap
        (c.splitWindows (c.unitsOf tok t))) = t
    ∧ (∀ u ∈ (wordUnits t).dropLast, u.data.getLast? = some ' ')
    ∧ concatUnits (wordUnits t) = t := by
  refine ⟨?_, ?_, concatUnits_wordUnits t⟩
  · rw [concatUnits_stitchedTexts, overlapStitch_splitWindows c h, hfid]
  · intro u hu
    unfold wordUnits at hu
    cases hd : t.data with
    | nil => rw [hd] at hu; simp at hu
    | cons ch cs =>
      rw [hd] at hu
      rw [← List.map_dropLast] at hu
      rcases List.mem_map.1 hu with ⟨v, hv, rfl⟩
      exact wordSplitAux_dropLast_space (ch :: cs) [] v hv

/-- C10 (witness): the stitched reconstruction evaluated at the concrete
valid configuration word/5/1 on `"a b c d e"`, whose word units
concatenate back to the text. -/
theorem stitched_reconstruction_witness :
    concatUnits (stitchedTexts (Chunker.mk .word 5 1).chunk_overlap
        ((Chunker.mk .word 5 1).splitWindows
          ((Chunker.mk .word 5 1).unitsOf nullTokenizer "a b c d e"))) =
      "a b c d e" :=
  (stitched_reconstruction (Chunker.mk .word 5 1) (by decide) nullTokenizer
    "a b c d e" (concatUnits_wordUnits "a b c d e")).1
